import Mathlib

/-!
# Menkalian/sumo: `GNEUndoList` and the traction-wire `Node`

A shallow embedding of

* `src/utils/traction_wire/Node.cpp`: the circuit node with its vector of
  incident element pointers, and
* `src/netedit/GNEUndoList.cpp`: the undo list of netedit, a stack of open
  change groups layered over the base class `FXUndoList2`,

followed by the properties of these definitions.

Definitions come first, theorems second.
-/

set_option autoImplicit false

/-! ## Part 1: definitions for `Node.cpp` -/

/-- An `Element*`: the address of an element; address `0` is `nullptr`. Pointers
are compared by identity (address), exactly as `it != element` does. -/
abbrev ElementPtr := Nat

/-- The null `Element*`. -/
def nullptr : ElementPtr := 0

/-- A C++ `double`, kept as its IEEE-754 binary64 bit pattern. No arithmetic
is performed on voltages in `Node.cpp`; the value is only stored and read. -/
structure Double where
  bits : Nat
deriving DecidableEq, Repr

/-- The `double` literal `0` (all bits clear). -/
def Double.zero : Double := ⟨0⟩

/-- The data members of `class Node`. The member `elements` is a
`vector<Element*>*` owned by the node; it is kept as the sequence it points to. -/
structure Node where
  isground : Bool
  name : String
  id : Int
  num_matrixRow : Int
  num_matrixCol : Int
  voltage : Double
  elements : List ElementPtr
  isremovable : Bool
deriving DecidableEq, Repr

namespace Node

/-- The constructor `Node::Node(string name, int id)`. -/
def new (name : String) (id : Int) : Node :=
  { isground := false
    name := name
    id := id
    num_matrixRow := -1
    num_matrixCol := -1
    voltage := Double.zero
    elements := []
    isremovable := false }

/-- `Node::addElement`: `elements->push_back(element)`. -/
def addElement (n : Node) (element : ElementPtr) : Node :=
  { n with elements := n.elements ++ [element] }

/-- `std::remove(first, last, value)` on a vector of pointers: the elements that
differ from `value` are shifted to the front in their original order, the slots
behind them keep what they held, and the index of the new logical end is
returned together with the buffer. -/
def std_remove (buf : List ElementPtr) (value : ElementPtr) : List ElementPtr × Nat :=
  let kept := buf.filter (fun it => it != value)
  (kept ++ buf.drop kept.length, kept.length)

/-- `vector::erase(first, last)` with iterators given as indices. -/
def vector_erase (buf : List ElementPtr) (first last : Nat) : List ElementPtr :=
  buf.take first ++ buf.drop last

/-- `Node::eraseElement`:
`elements->erase(std::remove(elements->begin(), elements->end(), element), elements->end())`. -/
def eraseElement (n : Node) (element : ElementPtr) : Node :=
  let r := std_remove n.elements element
  { n with elements := vector_erase r.1 r.2 r.1.length }

/-- `Node::getElements`. -/
def getElements (n : Node) : List ElementPtr := n.elements

/-- The range-based `for` loop of `Node::getAnOtherElement`: return the first
`it` with `it != element`, and `nullptr` when the loop runs to its end. -/
def getAnOtherElementLoop (element : ElementPtr) : List ElementPtr → ElementPtr
  | [] => nullptr
  | it :: rest => if it ≠ element then it else getAnOtherElementLoop element rest

/-- `Node::getAnOtherElement`. -/
def getAnOtherElement (n : Node) (element : ElementPtr) : ElementPtr :=
  getAnOtherElementLoop element n.getElements

end Node

/-! ## Part 2: definitions for `GNEUndoList.cpp` -/

/-- A `GNEChange_Attribute` command object. `tag` identifies the object;
`trueChange` is the result of its method `trueChange()`, whose body lives in
`GNEChange_Attribute.cpp` and is therefore carried as data. -/
structure GNEChange_Attribute where
  tag : Nat
  trueChange : Bool
deriving DecidableEq, Repr

/-- A recorded command: an atomic attribute change, or a committed group with
its description and its children in insertion order. -/
inductive Command where
  | attribute (cmd : GNEChange_Attribute)
  | group (description : String) (changes : List Command)
deriving Repr

/-- An open `GNEChangeGroup` object: its description and the commands recorded
into it so far, in insertion order. -/
structure GNEChangeGroup where
  description : String
  changes : List Command
deriving Repr

/-- Modelled from the spec: `GNEChangeGroup::size()` is not part of the given
sources; the spec calls it "the number of commands accumulated in" the group. -/
def GNEChangeGroup.size (g : GNEChangeGroup) : Int := g.changes.length

/-- `GNEChangeGroup::getDescription()`. -/
def GNEChangeGroup.getDescription (g : GNEChangeGroup) : String := g.description

/-- A `GNEChangeGroup*`: the address of a group object. -/
abbrev GroupPtr := Nat

/-- The three supermodes asked for by `p_end`. -/
inductive Supermode where
  | NETWORK | DEMAND | DATA
deriving DecidableEq, Repr

/-- Values of `NetworkEditMode`; the enumerators other than `NETWORK_SELECT`
are not told apart by `GNEUndoList.cpp`. -/
inductive NetworkEditMode where
  | NETWORK_SELECT | NETWORK_OTHER
deriving DecidableEq, Repr

/-- Values of `DemandEditMode`, as far as `GNEUndoList.cpp` tells them apart. -/
inductive DemandEditMode where
  | DEMAND_SELECT | DEMAND_OTHER
deriving DecidableEq, Repr

/-- Values of `DataEditMode`, as far as `GNEUndoList.cpp` tells them apart. -/
inductive DataEditMode where
  | DATA_SELECT | DATA_OTHER
deriving DecidableEq, Repr

/-- The edit modes returned by `GNEViewNet::getEditModes()`. -/
structure EditModes where
  currentSupermode : Supermode
  networkEditMode : NetworkEditMode
  demandEditMode : DemandEditMode
  dataEditMode : DataEditMode
deriving DecidableEq, Repr

/-- `editModes.isCurrentSupermodeNetwork()`. -/
def EditModes.isCurrentSupermodeNetwork (m : EditModes) : Bool :=
  m.currentSupermode == Supermode.NETWORK

/-- `editModes.isCurrentSupermodeDemand()`. -/
def EditModes.isCurrentSupermodeDemand (m : EditModes) : Bool :=
  m.currentSupermode == Supermode.DEMAND

/-- `editModes.isCurrentSupermodeData()`. -/
def EditModes.isCurrentSupermodeData (m : EditModes) : Bool :=
  m.currentSupermode == Supermode.DATA

/-- The part of `GNEViewNet` that `GNEUndoList.cpp` reads. -/
structure GNEViewNet where
  editModes : EditModes
deriving DecidableEq, Repr

/-- The part of `GNEApplicationWindow` that `GNEUndoList.cpp` reads:
`getViewNet()` (which may be null, see the checks "due #7252") and the
string returned by `isUndoRedoEnabled()`. -/
structure GNEApplicationWindow where
  viewNet : Option GNEViewNet
  undoRedoEnabled : String
deriving DecidableEq, Repr

/-- Calls that `GNEUndoList` makes into its collaborators, in program order. -/
inductive Event where
  /-- the base-class call `begin(group)` -/
  | fx_begin (p : GroupPtr)
  /-- the base-class call `end()` -/
  | fx_end
  /-- the base-class call `abort()` -/
  | fx_abort
  /-- the base-class call `clear()` -/
  | fx_clear
  /-- the base-class call `add(cmd, true)` -/
  | fx_add (cmd : GNEChange_Attribute)
  /-- the call `group->undo()` on the group object at address `p` -/
  | groupUndo (p : GroupPtr)
  /-- the statement `delete cmd` -/
  | deleteCmd (cmd : GNEChange_Attribute)
  /-- the call `getViewNet()->updateViewNet()` -/
  | updateViewNet
  /-- the call `...->getSelectionInformation()->updateInformationLabel()` -/
  | updateInformationLabel
  /-- the call `getIntervalBar().disableIntervalBarUpdate()` -/
  | disableIntervalBarUpdate
  /-- the call `getIntervalBar().enableIntervalBarUpdate()` -/
  | enableIntervalBarUpdate
deriving DecidableEq, Repr

/-- The state of a `GNEUndoList` object.

* `entries`, `cursor`, `group` are the state of the base class `FXUndoList2`:
  the committed top-level commands, the cursor between the undoable and the
  redoable range, and the chain of open recording scopes (innermost first),
  each an owned group object with its address.
* `myCommandGroups` is the `std::stack<GNEChangeGroup*>` (top first).
* `myGNEApplicationWindowParent` is the application window.
* `nextPtr` is the address the next `new GNEChangeGroup` will return.
* `trace` lists the calls made into collaborators so far, oldest first. -/
structure GNEUndoList where
  entries : List Command
  cursor : Nat
  group : List (GroupPtr × GNEChangeGroup)
  myCommandGroups : List GroupPtr
  myGNEApplicationWindowParent : GNEApplicationWindow
  nextPtr : GroupPtr
  trace : List Event
deriving Repr

namespace GNEUndoList

/-- Append one collaborator call to the trace. -/
def emit (e : Event) (s : GNEUndoList) : GNEUndoList :=
  { s with trace := s.trace ++ [e] }

/-- Dereference a `GNEChangeGroup*`: the open group object living at address
`p`, or `none` when no live group object has that address. -/
def deref (s : GNEUndoList) (p : GroupPtr) : Option GNEChangeGroup :=
  (s.group.find? (fun e => e.1 == p)).map Prod.snd

/-! ### The base class `FXUndoList2` -/

/-- Modelled from the spec: `FXUndoList2` is not part of the given sources.
`push(command)` "discards any redoable tail, appends `command`, advances
cursor past it". -/
def fx_push (c : Command) (s : GNEUndoList) : GNEUndoList :=
  { s with entries := s.entries.take s.cursor ++ [c]
           cursor := (s.entries.take s.cursor).length + 1 }

/-- Modelled from the spec: `FXUndoList2::begin(group)` "opens a nested
recording scope in the underlying log (commands added while this scope is
open accumulate into the new group instead of the log directly)". -/
def fx_begin (p : GroupPtr) (g : GNEChangeGroup) (s : GNEUndoList) : GNEUndoList :=
  emit (Event.fx_begin p) { s with group := (p, g) :: s.group }

/-- Modelled from the spec: record a command in "the current scope (top
group or log)". -/
def fx_record (c : Command) (s : GNEUndoList) : GNEUndoList :=
  match s.group with
  | [] => fx_push c s
  | (p, g) :: rest => { s with group := (p, { g with changes := g.changes ++ [c] }) :: rest }

/-- Modelled from the spec: `FXUndoList2::add(cmd, true)` "pushes it into the
current scope (top group or log)". -/
def fx_add (cmd : GNEChange_Attribute) (s : GNEUndoList) : GNEUndoList :=
  emit (Event.fx_add cmd) (fx_record (Command.attribute cmd) s)

/-- Modelled from the spec: `FXUndoList2::end()` "closes the nested recording
scope (committing the group as a single entry into whichever scope is now on
top — the log if the stack is now empty, otherwise the new top group)". The
scope "now on top" is the next one of the base class's own chain. The spec
does not say what the base class does when no scope is open; the state is
then left as it is. -/
def fx_end (s : GNEUndoList) : GNEUndoList :=
  emit Event.fx_end
    (match s.group with
     | [] => s
     | (_, g) :: rest =>
        fx_record (Command.group g.description g.changes) { s with group := rest })

/-- Modelled from the spec: `FXUndoList2::abort()` "closes the nested
recording scope without committing"; the group object is destroyed. With no
scope open the state is left as it is. -/
def fx_abort (s : GNEUndoList) : GNEUndoList :=
  emit Event.fx_abort { s with group := s.group.tail }

/-- Modelled from the spec: `FXUndoList2::clear()` "discards all entries; does
not invoke undo on them". -/
def fx_clear (s : GNEUndoList) : GNEUndoList :=
  emit Event.fx_clear { s with entries := [], cursor := 0 }

/-- Modelled from the spec: `canUndo()` is a pure query on the cursor; undo
"fails with `EmptyHistory` if cursor is at start". -/
def canUndo (s : GNEUndoList) : Bool := decide (0 < s.cursor)

/-- Modelled from the spec: `canRedo()` is a pure query on the cursor; redo
"fails with `EmptyHistory` if cursor is at end". -/
def canRedo (s : GNEUndoList) : Bool := decide (s.cursor < s.entries.length)

/-- The nesting depth of the base class: the number of recording scopes that
`begin` has opened and neither `end` nor `abort` has closed. -/
def nesting (s : GNEUndoList) : Nat := s.group.length

/-! ### The member functions of `GNEUndoList` -/

/-- The constructor `GNEUndoList::GNEUndoList(parent)`: an empty base list, an
empty group stack. Address `0` is `nullptr`, so allocation starts at `1`. -/
def new (parent : GNEApplicationWindow) : GNEUndoList :=
  { entries := []
    cursor := 0
    group := []
    myCommandGroups := []
    myGNEApplicationWindowParent := parent
    nextPtr := 1
    trace := [] }

/-- `GNEUndoList::hasCommandGroup`: `myCommandGroups.size() != 0`. -/
def hasCommandGroup (s : GNEUndoList) : Bool := s.myCommandGroups.length != 0

/-- `GNEUndoList::p_begin`: `myCommandGroups.push(new GNEChangeGroup(description))`
followed by `begin(myCommandGroups.top())`; the top is the pointer just pushed. -/
def p_begin (description : String) (s : GNEUndoList) : GNEUndoList :=
  let p := s.nextPtr
  let s1 := { s with myCommandGroups := p :: s.myCommandGroups, nextPtr := s.nextPtr + 1 }
  fx_begin p { description := description, changes := [] } s1

/-- The test of `p_end` that decides whether the selector frame is updated. -/
def selectModeActive (editModes : EditModes) : Bool :=
  (editModes.isCurrentSupermodeNetwork && editModes.networkEditMode == NetworkEditMode.NETWORK_SELECT) ||
  (editModes.isCurrentSupermodeDemand && editModes.demandEditMode == DemandEditMode.DEMAND_SELECT) ||
  (editModes.isCurrentSupermodeData && editModes.dataEditMode == DataEditMode.DATA_SELECT)

/-- `GNEUndoList::p_end`. The first statement is `myCommandGroups.pop()`; on an
empty `std::stack` that call has no defined behaviour, which is the `none`
result. -/
def p_end (s : GNEUndoList) : Option GNEUndoList :=
  match s.myCommandGroups with
  | [] => none
  | _ :: rest =>
    let s1 := { s with myCommandGroups := rest }
    let s2 :=
      match s1.myCommandGroups.isEmpty, s1.myGNEApplicationWindowParent.viewNet with
      | true, some viewNet =>
        let s3 := emit Event.updateViewNet s1
        if selectModeActive viewNet.editModes then emit Event.updateInformationLabel s3 else s3
      | _, _ => s1
    some (fx_end s2)

/-- The body of the loop of `p_abort`, which is also the body of the `if` of
`p_abortLastCommandGroup`: `myCommandGroups.top()->undo(); myCommandGroups.pop(); abort();`.
It is only run with a non-empty stack. -/
def abortTop (s : GNEUndoList) : GNEUndoList :=
  match s.myCommandGroups with
  | [] => s
  | top :: rest =>
    let s1 := emit (Event.groupUndo top) s
    let s2 := { s1 with myCommandGroups := rest }
    fx_abort s2

/-- `GNEUndoList::p_abort`: `while (hasCommandGroup()) { ... }`. Each round
of the loop pops one pointer, which is why the loop ends. -/
def p_abort (s : GNEUndoList) : GNEUndoList :=
  if s.hasCommandGroup = true then p_abort (abortTop s) else s
termination_by s.myCommandGroups.length
decreasing_by
  rename_i h
  unfold hasCommandGroup at h
  unfold abortTop
  cases hs : s.myCommandGroups with
  | nil => simp [hs] at h
  | cons top rest => simp [fx_abort, emit]

/-- `GNEUndoList::p_abortLastCommandGroup`: `if (myCommandGroups.size() > 0) { ... }`. -/
def p_abortLastCommandGroup (s : GNEUndoList) : GNEUndoList :=
  if s.myCommandGroups.length > 0 then abortTop s else s

/-- `GNEUndoList::p_clear`. -/
def p_clear (s : GNEUndoList) : GNEUndoList :=
  let s1 := if s.myGNEApplicationWindowParent.viewNet.isSome
            then emit Event.disableIntervalBarUpdate s else s
  let s2 := p_abort s1
  let s3 := fx_clear s2
  if s3.myGNEApplicationWindowParent.viewNet.isSome
  then emit Event.enableIntervalBarUpdate s3 else s3

/-- `GNEUndoList::p_add`. -/
def p_add (cmd : GNEChange_Attribute) (s : GNEUndoList) : GNEUndoList :=
  if cmd.trueChange then fx_add cmd s else emit (Event.deleteCmd cmd) s

/-- `GNEUndoList::currentCommandGroupSize`. Reading through a pointer that
refers to no live group object has no defined behaviour: the `none` result. -/
def currentCommandGroupSize (s : GNEUndoList) : Option Int :=
  if s.myCommandGroups.length > 0 then
    match s.myCommandGroups with
    | [] => none
    | top :: _ => (s.deref top).map GNEChangeGroup.size
  else
    some 0

/-- `GNEUndoList::getlastChange`. The result of
`dynamic_cast<GNEChange*>(myCommandGroups.top())` depends on whether the class
`GNEChangeGroup` derives from `GNEChange`, which `GNEChangeGroup.h` decides;
that fact is the parameter `groupIsGNEChange`. The result `none` is `nullptr`. -/
def getlastChange (groupIsGNEChange : Bool) (s : GNEUndoList) : Option GroupPtr :=
  if s.myCommandGroups.isEmpty then
    none
  else
    match s.myCommandGroups with
    | [] => none
    | top :: _ => if groupIsGNEChange then some top else none

end GNEUndoList

/-! ### The update handlers `p_onUpdUndo` and `p_onUpdRedo` -/

/-- What the two `dynamic_cast`s of the update handlers find out about the
sender: an `FXButton`, an `FXMenuCommand`, or neither. -/
inductive SenderKind where
  | button | menuCommand | other
deriving DecidableEq, Repr

/-- Messages the update handlers send to the sender, and the repaint request
`update()`. -/
inductive Message where
  | ID_ENABLE
  | ID_DISABLE
  | ID_SETSTRINGVALUE (caption : String)
  | update
deriving DecidableEq, Repr

/-- The sending control: its dynamic type, its enabled flag, its caption and
the messages it has handled so far, oldest first. -/
structure Sender where
  kind : SenderKind
  enabled : Bool
  caption : String
  handled : List Message
deriving DecidableEq, Repr

namespace Sender

/-- `button->isEnabled()`. -/
def isEnabled (w : Sender) : Bool := w.enabled

/-- `sender->handle(this, FXSEL(SEL_COMMAND, id), ptr)` for the three message
ids used here: enabling sets the enabled flag, disabling clears it, and
`ID_SETSTRINGVALUE` stores the caption. -/
def handle (m : Message) (w : Sender) : Sender :=
  match m with
  | Message.ID_ENABLE => { w with enabled := true, handled := w.handled ++ [m] }
  | Message.ID_DISABLE => { w with enabled := false, handled := w.handled ++ [m] }
  | Message.ID_SETSTRINGVALUE c => { w with caption := c, handled := w.handled ++ [m] }
  | Message.update => { w with handled := w.handled ++ [m] }

/-- The repaint request `update()`. -/
def update (w : Sender) : Sender := handle Message.update w

end Sender

namespace GNEUndoList

/-- The local variable `enable` of `p_onUpdUndo`:
`canUndo() && !hasCommandGroup() && isUndoRedoEnabled().empty()`. -/
def undoEnable (s : GNEUndoList) : Bool :=
  s.canUndo && !s.hasCommandGroup && s.myGNEApplicationWindowParent.undoRedoEnabled.isEmpty

/-- The local variable `enable` of `p_onUpdRedo`:
`canRedo() && !hasCommandGroup() && isUndoRedoEnabled().empty()`. -/
def redoEnable (s : GNEUndoList) : Bool :=
  s.canRedo && !s.hasCommandGroup && s.myGNEApplicationWindowParent.undoRedoEnabled.isEmpty

/-- The first half of both update handlers: enable or disable the sender
according to the flag `enable`, without needless messages to a button. -/
def applyEnable (enable : Bool) (sender : Sender) : Sender :=
  match sender.kind with
  | SenderKind.button =>
    if enable && !sender.isEnabled then
      (sender.handle Message.ID_ENABLE).update
    else if !enable && sender.isEnabled then
      (sender.handle Message.ID_DISABLE).update
    else
      sender
  | _ => sender.handle (if enable then Message.ID_ENABLE else Message.ID_DISABLE)

/-- The conversion `std::string::c_str()` followed by the construction of an
`FXString` from the `const char*`: the text up to the first NUL character; what
follows a NUL is lost. -/
def c_str (text : String) : String :=
  String.mk (text.data.takeWhile (fun c => c != Char.ofNat 0))

/-- The caption computed by both update handlers for a menu command: `name` is
`undoName()` or `redoName()` of the base class, `verb` is `Undo` or `Redo`, and
`can` is `canUndo()` or `canRedo()`. The two "in the middle of" captions are
built as a `std::string` and assigned through `c_str()`. Reading the
description through a pointer that refers to no live group object has no
defined behaviour: `none`. -/
def menuCaption (name verb : String) (can : Bool) (s : GNEUndoList) : Option String :=
  if s.myGNEApplicationWindowParent.undoRedoEnabled.length > 0 then
    some (c_str ("Cannot " ++ verb ++ " in the middle of " ++
      s.myGNEApplicationWindowParent.undoRedoEnabled))
  else if s.hasCommandGroup then
    match s.myCommandGroups with
    | [] => none
    | top :: _ =>
      (s.deref top).map
        (fun g => c_str ("Cannot " ++ verb ++ " in the middle of " ++ g.getDescription))
  else if !can then
    some verb
  else
    some name

/-- The second half of both update handlers: only a menu command gets the
caption. -/
def applyCaption (caption : Option String) (sender : Sender) : Option Sender :=
  match sender.kind with
  | SenderKind.menuCommand =>
    caption.map (fun c => (sender.handle (Message.ID_SETSTRINGVALUE c)).update)
  | _ => some sender

/-- `GNEUndoList::p_onUpdUndo`, as the state of the sender after the call;
`undoName` is the result of the base-class query `undoName()`. The function
itself always returns `1`. -/
def p_onUpdUndo (undoName : String) (s : GNEUndoList) (sender : Sender) : Option Sender :=
  let enable := s.undoEnable
  applyCaption (menuCaption undoName "Undo" s.canUndo s) (applyEnable enable sender)

/-- `GNEUndoList::p_onUpdRedo`, as the state of the sender after the call;
`redoName` is the result of the base-class query `redoName()`. The function
itself always returns `1`. -/
def p_onUpdRedo (redoName : String) (s : GNEUndoList) (sender : Sender) : Option Sender :=
  let enable := s.redoEnable
  applyCaption (menuCaption redoName "Redo" s.canRedo s) (applyEnable enable sender)

end GNEUndoList

/-! ### Notions used to state the properties -/

namespace GNEUndoList

/-- The stack of group pointers and the chain of open recording scopes of the
base class refer to the same group objects in the same order. -/
def Synced (s : GNEUndoList) : Prop :=
  s.myCommandGroups = s.group.map Prod.fst

instance (s : GNEUndoList) : Decidable (Synced s) := by
  unfold Synced
  infer_instance

/-- The commands held by the scope that currently records: the innermost open
group of the base class, or the undoable range of the log when no scope is
open. -/
def currentScope (s : GNEUndoList) : List Command :=
  match s.group with
  | [] => s.entries.take s.cursor
  | (_, g) :: _ => g.changes

/-- The calls made by `p_abort` for a stack of group pointers (top first): for
each pointer `undo()` on the group, then `abort()` of the base class. -/
def abortEvents : List GroupPtr → List Event
  | [] => []
  | p :: rest => Event.groupUndo p :: Event.fx_abort :: abortEvents rest

/-- The calls `p_end` makes between its `pop()` and `end()`, given the stack
left by the pop and the result of `getViewNet()`: the view refresh, and the
selector-frame update when a select mode is active. -/
def endNotifications : List GroupPtr → Option GNEViewNet → List Event
  | [], some viewNet =>
    Event.updateViewNet ::
      (if selectModeActive viewNet.editModes then [Event.updateInformationLabel] else [])
  | _, _ => []

/-- Calling `p_add` for each command of a list in turn. -/
def addCommands (cmds : List GNEChange_Attribute) (s : GNEUndoList) : GNEUndoList :=
  cmds.foldl (fun t cmd => p_add cmd t) s

/-- The number of commands of a list whose `trueChange()` holds. -/
def trueChanges (cmds : List GNEChange_Attribute) : Nat :=
  (cmds.filter (fun cmd => cmd.trueChange)).length

/-- The number of base-class calls `begin(...)` in a trace. -/
def beginCalls (t : List Event) : Nat :=
  t.countP (fun e => match e with | Event.fx_begin _ => true | _ => false)

/-- The number of base-class calls `end()` in a trace. -/
def endCalls (t : List Event) : Nat :=
  t.countP (fun e => match e with | Event.fx_end => true | _ => false)

/-- The number of base-class calls `abort()` in a trace. -/
def abortCalls (t : List Event) : Nat :=
  t.countP (fun e => match e with | Event.fx_abort => true | _ => false)

/-- The number of view refreshes `updateViewNet()` in a trace. -/
def viewUpdates (t : List Event) : Nat :=
  t.countP (fun e => match e with | Event.updateViewNet => true | _ => false)

/-- The calls a client can make on the undo list. -/
inductive Op where
  | p_begin (description : String)
  | p_end
  | p_abortLastCommandGroup
  | p_abort
  | p_clear
  | p_add (cmd : GNEChange_Attribute)
deriving DecidableEq, Repr

/-- One client call. Only `p_end` can be without a defined result, namely on an
empty stack. -/
def step (op : Op) (s : GNEUndoList) : Option GNEUndoList :=
  match op with
  | Op.p_begin description => some (p_begin description s)
  | Op.p_end => p_end s
  | Op.p_abortLastCommandGroup => some (p_abortLastCommandGroup s)
  | Op.p_abort => some (p_abort s)
  | Op.p_clear => some (p_clear s)
  | Op.p_add cmd => some (p_add cmd s)

/-- A sequence of client calls, first call first. -/
def run : List Op → GNEUndoList → Option GNEUndoList
  | [], s => some s
  | op :: ops, s =>
    match step op s with
    | none => none
    | some t => run ops t

/-- The wording of the spec for `lastCommittedChange()`: "returns the most
recently committed top-level entry if it is an atomic attribute-change type,
else none". -/
def lastCommittedChange_spec (s : GNEUndoList) : Option GNEChange_Attribute :=
  match s.entries.getLast? with
  | some (Command.attribute cmd) => some cmd
  | _ => none

end GNEUndoList

/-! ## Part 3: properties of `Node` -/

namespace Node

/-- The erase-remove statement of `eraseElement` leaves exactly the elements
that differ from `element`, in their original order. -/
theorem eraseElement_elements (n : Node) (element : ElementPtr) :
    (n.eraseElement element).elements = n.elements.filter (fun it => it != element) := by
  have hle := List.length_filter_le (fun it => it != element) n.elements
  simp [eraseElement, std_remove, vector_erase]
  omega

/-- The loop of `getAnOtherElement` returns `nullptr` when every element of the
sequence is identical to `element`. -/
theorem getAnOtherElementLoop_all_eq (element : ElementPtr) (xs : List ElementPtr)
    (h : ∀ x ∈ xs, x = element) : getAnOtherElementLoop element xs = nullptr := by
  induction xs with
  | nil => rfl
  | cons x xs ih =>
    have hx : x = element := h x (List.mem_cons_self x xs)
    have hxs : ∀ y ∈ xs, y = element := fun y hy => h y (List.mem_cons_of_mem x hy)
    simp [getAnOtherElementLoop, hx, ih hxs]

/-- The loop of `getAnOtherElement` skips a leading run of elements identical
to `element` and returns the element that follows the run. -/
theorem getAnOtherElementLoop_first (element : ElementPtr) (pre : List ElementPtr)
    (x : ElementPtr) (post : List ElementPtr)
    (hpre : ∀ y ∈ pre, y = element) (hx : x ≠ element) :
    getAnOtherElementLoop element (pre ++ x :: post) = x := by
  induction pre with
  | nil => simp [getAnOtherElementLoop, hx]
  | cons y pre ih =>
    have hy : y = element := hpre y (List.mem_cons_self y pre)
    have hrest : ∀ z ∈ pre, z = element := fun z hz => hpre z (List.mem_cons_of_mem y hz)
    simp [getAnOtherElementLoop, hy, ih hrest]

end Node

namespace Node

/-- Filtering out `element` shortens a sequence by the number of occurrences
of `element`. -/
theorem length_filter_ne_add_count (element : ElementPtr) (xs : List ElementPtr) :
    (xs.filter (fun it => it != element)).length + xs.count element = xs.length := by
  induction xs with
  | nil => rfl
  | cons x xs ih =>
    by_cases hx : x = element
    · subst hx
      simp [List.filter_cons]
      omega
    · have hne : (x != element) = true := by simpa using hx
      have hcount : (x :: xs).count element = xs.count element := by
        simp [List.count_cons, hx]
      rw [List.filter_cons, hne, hcount]
      simp
      omega

/-- Filtering out an element that does not occur changes nothing. -/
theorem filter_ne_of_not_mem (element : ElementPtr) (xs : List ElementPtr)
    (h : element ∉ xs) : xs.filter (fun it => it != element) = xs := by
  apply List.filter_eq_self.mpr
  intro a ha
  have : a ≠ element := fun hEq => h (hEq ▸ ha)
  simpa using this

/-- Claim C8, counterexample: a node whose only incident element is `1` has at
most one incident element, yet `getAnOtherElement` called with the element
reference `2` returns `1` and not `nullptr`. -/
theorem getAnOtherElement_single_not_null :
    (((Node.new "n" 0).addElement 1).elements.length ≤ 1) ∧
    ((Node.new "n" 0).addElement 1).getAnOtherElement 2 = 1 ∧
    ((Node.new "n" 0).addElement 1).getAnOtherElement 2 ≠ nullptr := by
  decide

/-- Claim C8, as amended: `getAnOtherElement(e)` returns `nullptr` when every
incident element of the node is identical to `e` (so for a node without
incident elements and for a node whose only incident element is `e`), and
otherwise returns the first element of the sequence that is not identical
to `e`. -/
theorem getAnOtherElement_first_other (n : Node) (e : ElementPtr) :
    ((∀ x ∈ n.elements, x = e) → n.getAnOtherElement e = nullptr) ∧
    (n.elements = [] → n.getAnOtherElement e = nullptr) ∧
    (n.elements = [e] → n.getAnOtherElement e = nullptr) ∧
    (∀ (pre : List ElementPtr) (x : ElementPtr) (post : List ElementPtr),
      n.elements = pre ++ x :: post → (∀ y ∈ pre, y = e) → x ≠ e →
      n.getAnOtherElement e = x) := by
  refine ⟨?_, ?_, ?_, ?_⟩
  · intro h
    exact getAnOtherElementLoop_all_eq e n.elements h
  · intro h
    apply getAnOtherElementLoop_all_eq e n.elements
    simp [h]
  · intro h
    apply getAnOtherElementLoop_all_eq e n.elements
    simp [h]
  · intro pre x post hsplit hpre hx
    unfold getAnOtherElement getElements
    rw [hsplit]
    exact getAnOtherElementLoop_first e pre x post hpre hx

/-- Claim C8, as amended, at concrete nodes: with incident elements `5, 5, 7, 8`
the call with `5` returns `7`; with the single incident element `5` it returns
`nullptr`. -/
theorem getAnOtherElement_first_other_witness :
    (((((Node.new "n" 0).addElement 5).addElement 5).addElement 7).addElement 8).getAnOtherElement 5
        = 7 ∧
    ((Node.new "n" 0).addElement 5).getAnOtherElement 5 = nullptr :=
  ⟨(getAnOtherElement_first_other
      (((((Node.new "n" 0).addElement 5).addElement 5).addElement 7).addElement 8) 5).2.2.2
      [5, 5] 7 [8] (by decide) (by decide) (by decide),
   (getAnOtherElement_first_other ((Node.new "n" 0).addElement 5) 5).2.2.1 (by decide)⟩

/-- Claim C9: `eraseElement(e)` removes `e` by identity. Afterwards `e` does not
occur among the node's elements; the elements are exactly the former elements
other than `e`, in their original relative order; every other element keeps its
multiplicity; the element count drops by the number of occurrences of `e`; when
`e` was not incident the node is unchanged; and name, id, voltage, matrix row,
matrix column, ground flag and removability flag are never changed. -/
theorem eraseElement_removes_by_identity (n : Node) (e : ElementPtr) :
    e ∉ (n.eraseElement e).elements ∧
    (n.eraseElement e).elements = n.elements.filter (fun it => it != e) ∧
    (n.eraseElement e).elements.Sublist n.elements ∧
    (∀ x, x ≠ e → (n.eraseElement e).elements.count x = n.elements.count x) ∧
    (n.eraseElement e).elements.length + n.elements.count e = n.elements.length ∧
    (e ∉ n.elements → n.eraseElement e = n) ∧
    (n.eraseElement e).name = n.name ∧
    (n.eraseElement e).id = n.id ∧
    (n.eraseElement e).voltage = n.voltage ∧
    (n.eraseElement e).num_matrixRow = n.num_matrixRow ∧
    (n.eraseElement e).num_matrixCol = n.num_matrixCol ∧
    (n.eraseElement e).isground = n.isground ∧
    (n.eraseElement e).isremovable = n.isremovable := by
  have hel := eraseElement_elements n e
  refine ⟨?_, hel, ?_, ?_, ?_, ?_, rfl, rfl, rfl, rfl, rfl, rfl, rfl⟩
  · rw [hel]
    simp [List.mem_filter]
  · rw [hel]
    exact List.filter_sublist n.elements
  · intro x hx
    rw [hel]
    apply List.count_filter
    simpa using hx
  · rw [hel]
    exact length_filter_ne_add_count e n.elements
  · intro habs
    have hsame : (n.eraseElement e).elements = n.elements := by
      rw [hel]
      exact filter_ne_of_not_mem e n.elements habs
    cases n
    simp only [eraseElement] at hsame ⊢
    simp only [Node.mk.injEq, true_and, and_true]
    exact hsame

/-- Claim C9 at concrete nodes: erasing `5` from a node with incident elements
`5, 7, 5, 8` leaves `7, 8`; erasing the absent `9` from a node with the single
incident element `5` leaves the node as it was. -/
theorem eraseElement_removes_by_identity_witness :
    ((((((Node.new "n" 0).addElement 5).addElement 7).addElement 5).addElement 8).eraseElement
        5).elements = [7, 8] ∧
    ((Node.new "n" 0).addElement 5).eraseElement 9 = (Node.new "n" 0).addElement 5 :=
  ⟨(eraseElement_removes_by_identity
      (((((Node.new "n" 0).addElement 5).addElement 7).addElement 5).addElement 8) 5).2.1.trans
      (by decide),
   (eraseElement_removes_by_identity ((Node.new "n" 0).addElement 5) 9).2.2.2.2.2.1 (by decide)⟩

end Node

/-! ## Part 4: properties of `GNEUndoList` -/

namespace GNEUndoList

/-- The body `abortTop` on a non-empty stack, spelled out. -/
theorem abortTop_cons (s : GNEUndoList) (top : GroupPtr) (rest : List GroupPtr)
    (h : s.myCommandGroups = top :: rest) :
    abortTop s =
      { s with myCommandGroups := rest
               group := s.group.tail
               trace := s.trace ++ [Event.groupUndo top, Event.fx_abort] } := by
  unfold abortTop
  rw [h]
  simp [fx_abort, emit]

/-- With an empty stack `p_abortLastCommandGroup` does nothing. -/
theorem p_abortLastCommandGroup_nil (s : GNEUndoList) (h : s.myCommandGroups = []) :
    p_abortLastCommandGroup s = s := by
  simp [p_abortLastCommandGroup, h]

/-- With a non-empty stack `p_abortLastCommandGroup` runs the body once. -/
theorem p_abortLastCommandGroup_cons (s : GNEUndoList) (top : GroupPtr)
    (rest : List GroupPtr) (h : s.myCommandGroups = top :: rest) :
    p_abortLastCommandGroup s = abortTop s := by
  simp [p_abortLastCommandGroup, h]

/-- With an empty stack the loop of `p_abort` is not entered. -/
theorem p_abort_nil (s : GNEUndoList) (h : s.myCommandGroups = []) : p_abort s = s := by
  rw [p_abort]
  simp [hasCommandGroup, h]

/-- With a non-empty stack the loop of `p_abort` runs its body and goes on. -/
theorem p_abort_cons (s : GNEUndoList) (top : GroupPtr) (rest : List GroupPtr)
    (h : s.myCommandGroups = top :: rest) : p_abort s = p_abort (abortTop s) := by
  rw [p_abort]
  simp [hasCommandGroup, h]

/-- The whole effect of `p_abort`: the stack is emptied, the base class loses
as many recording scopes as there were pointers on the stack, and the trace
grows by the calls `undo()`, `abort()` for each pointer, top first. -/
theorem p_abort_eq (l : List GroupPtr) :
    ∀ s : GNEUndoList, s.myCommandGroups = l →
      p_abort s =
        { s with myCommandGroups := []
                 group := s.group.drop l.length
                 trace := s.trace ++ abortEvents l } := by
  induction l with
  | nil =>
    intro s h
    rw [p_abort_nil s h]
    cases s
    simp at h
    simp [h, abortEvents]
  | cons top rest ih =>
    intro s h
    rw [p_abort_cons s top rest h, abortTop_cons s top rest h]
    rw [ih _ rfl]
    simp [abortEvents, List.drop_succ_cons]

/-- Repeating `p_abortLastCommandGroup` as often as the stack is deep has the
same whole effect. -/
theorem iterate_abortLast_eq (l : List GroupPtr) :
    ∀ s : GNEUndoList, s.myCommandGroups = l →
      p_abortLastCommandGroup^[l.length] s =
        { s with myCommandGroups := []
                 group := s.group.drop l.length
                 trace := s.trace ++ abortEvents l } := by
  induction l with
  | nil =>
    intro s h
    cases s
    simp at h
    simp [h, abortEvents]
  | cons top rest ih =>
    intro s h
    rw [List.length_cons, Function.iterate_succ_apply,
      p_abortLastCommandGroup_cons s top rest h, abortTop_cons s top rest h]
    rw [ih _ rfl]
    simp [abortEvents, List.drop_succ_cons]

end GNEUndoList

namespace GNEUndoList

/-! ### What the base-class operations leave alone -/

@[simp] theorem emit_myCommandGroups (e : Event) (s : GNEUndoList) :
    (emit e s).myCommandGroups = s.myCommandGroups := rfl

@[simp] theorem emit_group (e : Event) (s : GNEUndoList) : (emit e s).group = s.group := rfl

@[simp] theorem emit_entries (e : Event) (s : GNEUndoList) : (emit e s).entries = s.entries := rfl

@[simp] theorem emit_cursor (e : Event) (s : GNEUndoList) : (emit e s).cursor = s.cursor := rfl

@[simp] theorem emit_trace (e : Event) (s : GNEUndoList) : (emit e s).trace = s.trace ++ [e] := rfl

@[simp] theorem emit_parent (e : Event) (s : GNEUndoList) :
    (emit e s).myGNEApplicationWindowParent = s.myGNEApplicationWindowParent := rfl

@[simp] theorem fx_record_myCommandGroups (c : Command) (s : GNEUndoList) :
    (fx_record c s).myCommandGroups = s.myCommandGroups := by
  unfold fx_record
  split <;> simp [fx_push]

@[simp] theorem fx_record_trace (c : Command) (s : GNEUndoList) :
    (fx_record c s).trace = s.trace := by
  unfold fx_record
  split <;> simp [fx_push]

@[simp] theorem fx_record_parent (c : Command) (s : GNEUndoList) :
    (fx_record c s).myGNEApplicationWindowParent = s.myGNEApplicationWindowParent := by
  unfold fx_record
  split <;> simp [fx_push]

@[simp] theorem fx_record_pointers (c : Command) (s : GNEUndoList) :
    (fx_record c s).group.map Prod.fst = s.group.map Prod.fst := by
  unfold fx_record
  split
  · next h => simp [fx_push, h]
  · next p g rest h => simp [h]

@[simp] theorem fx_record_nesting (c : Command) (s : GNEUndoList) :
    (fx_record c s).group.length = s.group.length := by
  have h := congrArg List.length (fx_record_pointers c s)
  simp only [List.length_map] at h
  exact h

@[simp] theorem fx_end_myCommandGroups (s : GNEUndoList) :
    (fx_end s).myCommandGroups = s.myCommandGroups := by
  unfold fx_end
  split <;> simp

@[simp] theorem fx_end_trace (s : GNEUndoList) : (fx_end s).trace = s.trace ++ [Event.fx_end] := by
  unfold fx_end
  split <;> simp

@[simp] theorem fx_end_parent (s : GNEUndoList) :
    (fx_end s).myGNEApplicationWindowParent = s.myGNEApplicationWindowParent := by
  unfold fx_end
  split <;> simp

@[simp] theorem fx_end_pointers (s : GNEUndoList) :
    (fx_end s).group.map Prod.fst = (s.group.map Prod.fst).tail := by
  unfold fx_end
  split
  · next h => simp [h]
  · next p g rest h => simp [h]

@[simp] theorem fx_end_nesting (s : GNEUndoList) :
    (fx_end s).group.length = s.group.length - 1 := by
  have h := congrArg List.length (fx_end_pointers s)
  simp only [List.length_map, List.length_tail] at h
  exact h

/-- The whole effect of `p_end` on a non-empty stack, up to what `end()` does
inside the base class. -/
theorem p_end_cons (s : GNEUndoList) (top : GroupPtr) (rest : List GroupPtr)
    (h : s.myCommandGroups = top :: rest) :
    ∃ t, p_end s = some t ∧ t.myCommandGroups = rest ∧
      t.group.map Prod.fst = (s.group.map Prod.fst).tail ∧
      t.myGNEApplicationWindowParent = s.myGNEApplicationWindowParent ∧
      t.trace = s.trace ++ endNotifications rest s.myGNEApplicationWindowParent.viewNet
        ++ [Event.fx_end] := by
  unfold p_end
  rw [h]
  cases rest with
  | nil =>
    cases hv : s.myGNEApplicationWindowParent.viewNet with
    | none => simp [hv, endNotifications]
    | some viewNet =>
      by_cases hsel : selectModeActive viewNet.editModes = true
      · simp [hv, hsel, endNotifications]
      · simp [hv, hsel, endNotifications]
  | cons p ps =>
    cases hv : s.myGNEApplicationWindowParent.viewNet <;> simp [hv, endNotifications]

end GNEUndoList

namespace GNEUndoList

/-! ### Claim C1: calls on an empty stack -/

/-- Claim C1, counterexample: on a freshly constructed undo list, whose group
stack is empty, `p_abortLastCommandGroup` returns normally and leaves the state,
trace of calls included, exactly as it was. -/
theorem p_abortLastCommandGroup_fresh_is_silent :
    (GNEUndoList.new { viewNet := none, undoRedoEnabled := "" }).myCommandGroups = [] ∧
    p_abortLastCommandGroup (GNEUndoList.new { viewNet := none, undoRedoEnabled := "" }) =
      GNEUndoList.new { viewNet := none, undoRedoEnabled := "" } :=
  ⟨rfl, rfl⟩

/-- Claim C1, as amended: with an empty group stack `p_abortLastCommandGroup`
(whose body is guarded by `size() > 0`) and `p_abort` return normally and leave
the state unchanged, without any call into the base class; `p_end` has no guard
and starts by popping the empty stack, for which no result is defined. -/
theorem empty_stack_calls (s : GNEUndoList) (h : s.myCommandGroups = []) :
    p_abortLastCommandGroup s = s ∧ p_abort s = s ∧ p_end s = none := by
  refine ⟨p_abortLastCommandGroup_nil s h, p_abort_nil s h, ?_⟩
  unfold p_end
  rw [h]

/-- Claim C1, as amended, on a freshly constructed undo list. -/
theorem empty_stack_calls_witness :
    (GNEUndoList.new { viewNet := none, undoRedoEnabled := "" }).myCommandGroups = [] ∧
    p_abortLastCommandGroup (GNEUndoList.new { viewNet := none, undoRedoEnabled := "" }) =
      GNEUndoList.new { viewNet := none, undoRedoEnabled := "" } ∧
    p_abort (GNEUndoList.new { viewNet := none, undoRedoEnabled := "" }) =
      GNEUndoList.new { viewNet := none, undoRedoEnabled := "" } ∧
    p_end (GNEUndoList.new { viewNet := none, undoRedoEnabled := "" }) = none :=
  ⟨rfl, empty_stack_calls (GNEUndoList.new { viewNet := none, undoRedoEnabled := "" }) rfl⟩

/-! ### Claim C2: `getlastChange` -/

/-- Claim C2, counterexample: after one true attribute change has been added to
a fresh undo list, the log's most recently committed top-level entry is that
attribute change, yet `getlastChange` returns `nullptr` (whatever the cast
does); and opening a group, which leaves the log as it is, changes the result
of `getlastChange` to the new group. -/
theorem getlastChange_ignores_log :
    lastCommittedChange_spec
      (p_add ⟨1, true⟩ (GNEUndoList.new { viewNet := none, undoRedoEnabled := "" })) =
        some ⟨1, true⟩ ∧
    getlastChange true
      (p_add ⟨1, true⟩ (GNEUndoList.new { viewNet := none, undoRedoEnabled := "" })) = none ∧
    getlastChange false
      (p_add ⟨1, true⟩ (GNEUndoList.new { viewNet := none, undoRedoEnabled := "" })) = none ∧
    lastCommittedChange_spec
      (p_begin "A"
        (p_add ⟨1, true⟩ (GNEUndoList.new { viewNet := none, undoRedoEnabled := "" }))) =
        some ⟨1, true⟩ ∧
    getlastChange true
      (p_begin "A"
        (p_add ⟨1, true⟩ (GNEUndoList.new { viewNet := none, undoRedoEnabled := "" }))) =
        some 1 := by
  decide

/-- Claim C2, as amended: `getlastChange` returns `nullptr` when no group is
open; otherwise it returns the top-most open group when that pointer casts to
`GNEChange*`, and `nullptr` when it does not. Its result is determined by the
stack of open groups alone: two states with the same stack give the same
result, whatever their logs hold. -/
theorem getlastChange_reads_stack (groupIsGNEChange : Bool) (s : GNEUndoList) :
    (s.myCommandGroups = [] → getlastChange groupIsGNEChange s = none) ∧
    (∀ top rest, s.myCommandGroups = top :: rest →
      getlastChange groupIsGNEChange s = if groupIsGNEChange then some top else none) ∧
    (∀ t : GNEUndoList, t.myCommandGroups = s.myCommandGroups →
      getlastChange groupIsGNEChange t = getlastChange groupIsGNEChange s) := by
  refine ⟨?_, ?_, ?_⟩
  · intro h
    simp [getlastChange, h]
  · intro top rest h
    simp [getlastChange, h]
  · intro t h
    simp [getlastChange, h]

/-- Claim C2, as amended, at concrete states: with the group at address `1` open
the result is that group if the cast succeeds; a state with the same stack and
one more log entry gives the same result. -/
theorem getlastChange_reads_stack_witness :
    getlastChange true
      (p_begin "A" (GNEUndoList.new { viewNet := none, undoRedoEnabled := "" })) = some 1 ∧
    getlastChange true
      (fx_push (Command.attribute ⟨7, true⟩)
        (p_begin "A" (GNEUndoList.new { viewNet := none, undoRedoEnabled := "" }))) =
    getlastChange true
      (p_begin "A" (GNEUndoList.new { viewNet := none, undoRedoEnabled := "" })) :=
  ⟨(getlastChange_reads_stack true
      (p_begin "A" (GNEUndoList.new { viewNet := none, undoRedoEnabled := "" }))).2.1
      1 [] rfl,
   (getlastChange_reads_stack true
      (p_begin "A" (GNEUndoList.new { viewNet := none, undoRedoEnabled := "" }))).2.2
      (fx_push (Command.attribute ⟨7, true⟩)
        (p_begin "A" (GNEUndoList.new { viewNet := none, undoRedoEnabled := "" }))) rfl⟩

/-! ### Claim C3: `p_abort` -/

/-- Claim C3: `p_abort` is a total function (its loop ends, one pointer being
popped per round); it equals `p_abortLastCommandGroup` applied as often as
there are open groups; it leaves the group stack empty; and the calls it makes
are, for each open group from the top of the stack down, `undo()` on that
group followed by `abort()` of the base class, each group exactly once. In
one round `undo()` is called on the group while it is still the top of the
stack, then the pointer is popped, then `abort()` closes the recording
scope. -/
theorem p_abort_eq_iterate (s : GNEUndoList) :
    p_abort s = p_abortLastCommandGroup^[s.myCommandGroups.length] s ∧
    (p_abort s).myCommandGroups = [] ∧
    (p_abort s).hasCommandGroup = false ∧
    (p_abort s).trace = s.trace ++ abortEvents s.myCommandGroups ∧
    (p_abort s).nesting = s.nesting - s.myCommandGroups.length ∧
    (p_abort s).entries = s.entries ∧
    (p_abort s).cursor = s.cursor ∧
    (∀ top rest, s.myCommandGroups = top :: rest →
      p_abortLastCommandGroup s =
        fx_abort { emit (Event.groupUndo top) s with myCommandGroups := rest }) := by
  have h1 := p_abort_eq s.myCommandGroups s rfl
  have h2 := iterate_abortLast_eq s.myCommandGroups s rfl
  refine ⟨h1.trans h2.symm, ?_, ?_, ?_, ?_, ?_, ?_, ?_⟩
  · rw [h1]
  · rw [h1]
    rfl
  · rw [h1]
  · rw [h1]
    simp [nesting]
  · rw [h1]
  · rw [h1]
  · intro top rest h
    rw [p_abortLastCommandGroup_cons s top rest h]
    unfold abortTop
    rw [h]

/-- Claim C3 at a concrete state: with the groups `A` (address 1) and `B`
(address 2) open, `p_abort` equals two calls of `p_abortLastCommandGroup`, and
it undoes and aborts `B` first, `A` second. -/
theorem p_abort_eq_iterate_witness :
    p_abort (p_begin "B" (p_begin "A" (GNEUndoList.new { viewNet := none, undoRedoEnabled := "" })))
      = p_abortLastCommandGroup (p_abortLastCommandGroup
          (p_begin "B" (p_begin "A" (GNEUndoList.new { viewNet := none, undoRedoEnabled := "" })))) ∧
    (p_abort
        (p_begin "B" (p_begin "A" (GNEUndoList.new { viewNet := none, undoRedoEnabled := "" })))).trace
      = [Event.fx_begin 1, Event.fx_begin 2,
         Event.groupUndo 2, Event.fx_abort, Event.groupUndo 1, Event.fx_abort] :=
  ⟨(p_abort_eq_iterate
      (p_begin "B" (p_begin "A" (GNEUndoList.new { viewNet := none, undoRedoEnabled := "" })))).1,
   (p_abort_eq_iterate
      (p_begin "B" (p_begin "A" (GNEUndoList.new { viewNet := none, undoRedoEnabled := "" })))).2.2.2.1⟩

end GNEUndoList

namespace GNEUndoList

/-! ### Claim C4: `p_end` -/

/-- Counting the view refreshes among the calls made by `p_end`. -/
theorem viewUpdates_endNotifications (rest : List GroupPtr) (v : Option GNEViewNet) :
    viewUpdates (endNotifications rest v) = if rest = [] ∧ v.isSome = true then 1 else 0 := by
  cases rest with
  | nil =>
    cases v with
    | none => simp [endNotifications, viewUpdates]
    | some viewNet =>
      by_cases hsel : selectModeActive viewNet.editModes = true <;>
        simp [endNotifications, viewUpdates, hsel]
  | cons p ps => cases v <;> simp [endNotifications, viewUpdates]

/-- The view refresh is among the calls made by `p_end` exactly when the pop
empties the stack and there is a view net. -/
theorem updateViewNet_mem_endNotifications (rest : List GroupPtr) (v : Option GNEViewNet) :
    Event.updateViewNet ∈ endNotifications rest v ↔ (rest = [] ∧ v.isSome = true) := by
  cases rest with
  | nil =>
    cases v with
    | none => simp [endNotifications]
    | some viewNet => simp [endNotifications]
  | cons p ps => cases v <;> simp [endNotifications]

/-- Claim C4, counterexample: an application window without a view net, one
group open. `p_end` pops it, the stack is empty after the pop, and the view
refresh is not invoked: the only call made is `end()` of the base class. -/
theorem p_end_without_viewNet_no_refresh :
    (p_begin "A" (GNEUndoList.new { viewNet := none, undoRedoEnabled := "" })).myCommandGroups
      = [1] ∧
    (p_end (p_begin "A" (GNEUndoList.new { viewNet := none, undoRedoEnabled := "" }))).map
      (fun t => (t.myCommandGroups, t.trace)) =
      some ([], [Event.fx_begin 1, Event.fx_end]) := by
  decide

/-- Claim C4, as amended: with at least one open group `p_end` returns; it pops
exactly the top pointer and leaves the pointers below as they were; it closes
one recording scope of the base class by exactly one call of `end()`, made
last; and the view refresh `updateViewNet()` is invoked, once, if and only if
the group stack is empty after the pop and the application window has a view
net. -/
theorem p_end_pops_and_notifies (s : GNEUndoList) (top : GroupPtr) (rest : List GroupPtr)
    (h : s.myCommandGroups = top :: rest) :
    ∃ t, p_end s = some t ∧
      t.myCommandGroups = rest ∧
      t.myCommandGroups.length + 1 = s.myCommandGroups.length ∧
      t.nesting = s.nesting - 1 ∧
      t.trace = s.trace ++ endNotifications rest s.myGNEApplicationWindowParent.viewNet
        ++ [Event.fx_end] ∧
      endCalls t.trace = endCalls s.trace + 1 ∧
      (Event.updateViewNet ∈ endNotifications rest s.myGNEApplicationWindowParent.viewNet ↔
        (rest = [] ∧ s.myGNEApplicationWindowParent.viewNet.isSome = true)) ∧
      viewUpdates t.trace = viewUpdates s.trace +
        (if rest = [] ∧ s.myGNEApplicationWindowParent.viewNet.isSome = true then 1 else 0) := by
  obtain ⟨t, ht, hstack, hptr, _, htrace⟩ := p_end_cons s top rest h
  refine ⟨t, ht, hstack, ?_, ?_, htrace, ?_, ?_, ?_⟩
  · rw [hstack, h]
    rfl
  · have hlen := congrArg List.length hptr
    simp only [List.length_map, List.length_tail] at hlen
    exact hlen
  · rw [htrace]
    have hnone : endCalls (endNotifications rest s.myGNEApplicationWindowParent.viewNet) = 0 := by
      cases rest with
      | nil =>
        cases hv : s.myGNEApplicationWindowParent.viewNet with
        | none => simp [endNotifications, endCalls]
        | some viewNet =>
          by_cases hsel : selectModeActive viewNet.editModes = true <;>
            simp [endNotifications, endCalls, hsel]
      | cons p ps =>
        cases hv : s.myGNEApplicationWindowParent.viewNet <;> simp [endNotifications, endCalls]
    unfold endCalls at hnone ⊢
    simp [List.countP_append, hnone]
  · exact updateViewNet_mem_endNotifications rest _
  · rw [htrace]
    have hv := viewUpdates_endNotifications rest s.myGNEApplicationWindowParent.viewNet
    unfold viewUpdates at hv ⊢
    simp only [List.countP_append, hv]
    simp

/-- Claim C4, as amended, at a concrete state: with a view net and the single
group `A` open, `p_end` empties the stack and refreshes the view once. -/
theorem p_end_pops_and_notifies_witness :
    ∃ t, p_end (p_begin "A" (GNEUndoList.new
        { viewNet := some ⟨⟨Supermode.NETWORK, NetworkEditMode.NETWORK_OTHER,
            DemandEditMode.DEMAND_OTHER, DataEditMode.DATA_OTHER⟩⟩,
          undoRedoEnabled := "" })) = some t ∧
      t.myCommandGroups = [] ∧
      t.trace = [Event.fx_begin 1, Event.updateViewNet, Event.fx_end] := by
  obtain ⟨t, ht, hstack, _, _, htrace, _⟩ :=
    p_end_pops_and_notifies (p_begin "A" (GNEUndoList.new
        { viewNet := some ⟨⟨Supermode.NETWORK, NetworkEditMode.NETWORK_OTHER,
            DemandEditMode.DEMAND_OTHER, DataEditMode.DATA_OTHER⟩⟩,
          undoRedoEnabled := "" })) 1 [] rfl
  exact ⟨t, ht, hstack, htrace⟩

end GNEUndoList

namespace GNEUndoList

/-! ### Claims C5 and C6: `p_add` and `currentCommandGroupSize` -/

/-- Recording a command appends it to the scope that currently records. -/
theorem currentScope_fx_record (c : Command) (s : GNEUndoList) :
    currentScope (fx_record c s) = currentScope s ++ [c] := by
  unfold fx_record currentScope
  cases hg : s.group with
  | nil => simp [fx_push, hg]
  | cons e rest =>
    obtain ⟨p, g⟩ := e
    simp

/-- In a synced state the top pointer of the stack refers to the innermost
recording scope of the base class. -/
theorem Synced.deref_top (s : GNEUndoList) (hs : Synced s) (top : GroupPtr)
    (rest : List GroupPtr) (h : s.myCommandGroups = top :: rest) :
    ∃ g tail, s.group = (top, g) :: tail ∧ s.deref top = some g := by
  unfold Synced at hs
  rw [h] at hs
  cases hg : s.group with
  | nil => simp [hg] at hs
  | cons e tail =>
    obtain ⟨p, g⟩ := e
    rw [hg] at hs
    simp at hs
    refine ⟨g, tail, ?_, ?_⟩
    · rw [hs.1]
    · simp [deref, hg, hs.1]

/-- A false change leaves everything but the trace as it was. -/
theorem p_add_false (cmd : GNEChange_Attribute) (s : GNEUndoList)
    (h : cmd.trueChange = false) : p_add cmd s = emit (Event.deleteCmd cmd) s := by
  simp [p_add, h]

/-- A true change is handed to `add` of the base class. -/
theorem p_add_true (cmd : GNEChange_Attribute) (s : GNEUndoList)
    (h : cmd.trueChange = true) : p_add cmd s = fx_add cmd s := by
  simp [p_add, h]

/-- Adding commands while the group at the top of the stack is the innermost
recording scope: the true changes, and only they, are appended to it. -/
theorem addCommands_top (cmds : List GNEChange_Attribute) :
    ∀ (s : GNEUndoList) (p : GroupPtr) (g : GNEChangeGroup)
      (tail : List (GroupPtr × GNEChangeGroup)),
      s.group = (p, g) :: tail →
      (addCommands cmds s).myCommandGroups = s.myCommandGroups ∧
      (addCommands cmds s).group =
        (p, { g with changes := g.changes ++
                ((cmds.filter (fun cmd => cmd.trueChange)).map Command.attribute) }) :: tail := by
  induction cmds with
  | nil =>
    intro s p g tail hg
    simp [addCommands, hg]
  | cons cmd cmds ih =>
    intro s p g tail hg
    have hstep : addCommands (cmd :: cmds) s = addCommands cmds (p_add cmd s) := rfl
    rw [hstep]
    by_cases ht : cmd.trueChange = true
    · have hgroup : (p_add cmd s).group =
          (p, { g with changes := g.changes ++ [Command.attribute cmd] }) :: tail := by
        simp [p_add_true cmd s ht, fx_add, fx_record, hg]
      have hstack : (p_add cmd s).myCommandGroups = s.myCommandGroups := by
        simp [p_add_true cmd s ht, fx_add]
      obtain ⟨h1, h2⟩ := ih (p_add cmd s) p _ tail hgroup
      refine ⟨h1.trans hstack, ?_⟩
      rw [h2]
      simp [List.filter_cons, ht]
    · have hf : cmd.trueChange = false := by simpa using ht
      have hgroup : (p_add cmd s).group = (p, g) :: tail := by
        simp [p_add_false cmd s hf, hg]
      have hstack : (p_add cmd s).myCommandGroups = s.myCommandGroups := by
        simp [p_add_false cmd s hf]
      obtain ⟨h1, h2⟩ := ih (p_add cmd s) p g tail hgroup
      refine ⟨h1.trans hstack, ?_⟩
      rw [h2]
      simp [List.filter_cons, hf]

/-- Claim C5: `p_add` records the command in the current scope if and only if
its `trueChange()` holds. A true change is appended to the log (after the
undoable range) when no recording scope is open and to the innermost open group
otherwise, which in a synced state is the group at the top of the stack; a
false change is deleted, and the group stack, the open groups, the current
group's size and the log are all unchanged. -/
theorem p_add_records_iff_trueChange (cmd : GNEChange_Attribute) (s : GNEUndoList) :
    (currentScope (p_add cmd s) = currentScope s ++ [Command.attribute cmd] ↔
      cmd.trueChange = true) ∧
    (p_add cmd s).myCommandGroups = s.myCommandGroups ∧
    (cmd.trueChange = true → s.group = [] →
      (p_add cmd s).entries = s.entries.take s.cursor ++ [Command.attribute cmd] ∧
      (p_add cmd s).cursor = (p_add cmd s).entries.length ∧
      (p_add cmd s).group = []) ∧
    (cmd.trueChange = true → ∀ p g tail, s.group = (p, g) :: tail →
      (p_add cmd s).group =
        (p, { g with changes := g.changes ++ [Command.attribute cmd] }) :: tail ∧
      (p_add cmd s).entries = s.entries ∧
      (p_add cmd s).cursor = s.cursor) ∧
    (cmd.trueChange = true → Synced s → ∀ top rest, s.myCommandGroups = top :: rest →
      ∃ g, s.deref top = some g ∧
        (p_add cmd s).deref top =
          some { g with changes := g.changes ++ [Command.attribute cmd] } ∧
        currentCommandGroupSize (p_add cmd s) = some (g.size + 1)) ∧
    (cmd.trueChange = false →
      (p_add cmd s).group = s.group ∧
      (p_add cmd s).entries = s.entries ∧
      (p_add cmd s).cursor = s.cursor ∧
      currentScope (p_add cmd s) = currentScope s ∧
      currentCommandGroupSize (p_add cmd s) = currentCommandGroupSize s ∧
      (p_add cmd s).trace = s.trace ++ [Event.deleteCmd cmd]) := by
  refine ⟨?_, ?_, ?_, ?_, ?_, ?_⟩
  · constructor
    · intro h
      by_contra ht
      have hf : cmd.trueChange = false := by simpa using ht
      rw [p_add_false cmd s hf] at h
      have hsame : currentScope (emit (Event.deleteCmd cmd) s) = currentScope s := rfl
      rw [hsame] at h
      simp at h
    · intro ht
      rw [p_add_true cmd s ht]
      exact currentScope_fx_record (Command.attribute cmd) s
  · by_cases ht : cmd.trueChange = true
    · simp [p_add_true cmd s ht, fx_add]
    · have hf : cmd.trueChange = false := by simpa using ht
      simp [p_add_false cmd s hf]
  · intro ht hg
    rw [p_add_true cmd s ht]
    simp [fx_add, fx_record, fx_push, hg]
  · intro ht p g tail hg
    rw [p_add_true cmd s ht]
    simp [fx_add, fx_record, hg]
  · intro ht hs top rest hstack
    obtain ⟨g, tail, hg, hd⟩ := Synced.deref_top s hs top rest hstack
    refine ⟨g, hd, ?_, ?_⟩
    · rw [p_add_true cmd s ht]
      simp [fx_add, fx_record, hg, deref]
    · rw [p_add_true cmd s ht]
      simp [currentCommandGroupSize, fx_add, fx_record, hg, deref, hstack,
        GNEChangeGroup.size]
  · intro hf
    rw [p_add_false cmd s hf]
    refine ⟨rfl, rfl, rfl, rfl, rfl, rfl⟩

/-- Claim C5 at concrete states: inside the open group `A` the true change with
tag `7` becomes the group's single command and the false change with tag `8`
does not change the group's size. -/
theorem p_add_records_iff_trueChange_witness :
    currentCommandGroupSize
      (p_add ⟨7, true⟩
        (p_begin "A" (GNEUndoList.new { viewNet := none, undoRedoEnabled := "" }))) =
      some 1 ∧
    currentCommandGroupSize
      (p_add ⟨8, false⟩
        (p_begin "A" (GNEUndoList.new { viewNet := none, undoRedoEnabled := "" }))) =
      some 0 := by
  obtain ⟨g, hg, _, hsize⟩ :=
    (p_add_records_iff_trueChange ⟨7, true⟩
      (p_begin "A" (GNEUndoList.new { viewNet := none, undoRedoEnabled := "" }))).2.2.2.2.1
      rfl (by decide) 1 [] rfl
  have hg0 : g = { description := "A", changes := [] } := by
    have h0 : (p_begin "A" (GNEUndoList.new { viewNet := none, undoRedoEnabled := "" })).deref 1
        = some { description := "A", changes := [] } := rfl
    rw [h0] at hg
    exact (Option.some.inj hg).symm
  subst hg0
  refine ⟨hsize, ?_⟩
  have hfalse :=
    (p_add_records_iff_trueChange ⟨8, false⟩
      (p_begin "A" (GNEUndoList.new { viewNet := none, undoRedoEnabled := "" }))).2.2.2.2.2
      rfl
  exact hfalse.2.2.2.2.1

end GNEUndoList

namespace GNEUndoList

/-- Claim C6: `currentCommandGroupSize` returns `0` when the group stack is
empty; otherwise it returns the size of the group at the top of the stack,
i.e. the number of commands that group holds, whatever the enclosing groups
hold; after `p_begin` followed by any sequence of `p_add` calls it is exactly
the number of true changes among them, in every state; in a synced state it
always has a result. It is a query: the state is an argument and not a result. -/
theorem currentCommandGroupSize_counts (s : GNEUndoList) :
    (s.myCommandGroups = [] → currentCommandGroupSize s = some 0) ∧
    (∀ top rest g, s.myCommandGroups = top :: rest → s.deref top = some g →
      currentCommandGroupSize s = some (g.changes.length : Int)) ∧
    (∀ (description : String) (cmds : List GNEChange_Attribute),
      currentCommandGroupSize (addCommands cmds (p_begin description s)) =
        some (trueChanges cmds : Int)) ∧
    (Synced s → (currentCommandGroupSize s).isSome = true) := by
  refine ⟨?_, ?_, ?_, ?_⟩
  · intro h
    simp [currentCommandGroupSize, h]
  · intro top rest g h hd
    simp [currentCommandGroupSize, h, hd, GNEChangeGroup.size]
  · intro description cmds
    have hg : (p_begin description s).group =
        (s.nextPtr, { description := description, changes := [] }) :: s.group := rfl
    have hst : (p_begin description s).myCommandGroups = s.nextPtr :: s.myCommandGroups := rfl
    obtain ⟨h1, h2⟩ := addCommands_top cmds (p_begin description s) s.nextPtr _ s.group hg
    simp [currentCommandGroupSize, h1, hst, deref, h2, GNEChangeGroup.size, trueChanges]
  · intro hs
    cases hstack : s.myCommandGroups with
    | nil => simp [currentCommandGroupSize, hstack]
    | cons top rest =>
      obtain ⟨g, tail, _, hd⟩ := Synced.deref_top s hs top rest hstack
      simp [currentCommandGroupSize, hstack, hd]

/-- Claim C6 at concrete states: no group open gives `0`; inside group `B`,
nested in group `A` that already holds one command, two true changes and one
false change give `2`. -/
theorem currentCommandGroupSize_counts_witness :
    currentCommandGroupSize (GNEUndoList.new { viewNet := none, undoRedoEnabled := "" }) =
      some 0 ∧
    currentCommandGroupSize
      (addCommands [⟨2, true⟩, ⟨3, false⟩, ⟨4, true⟩]
        (p_begin "B" (p_add ⟨1, true⟩
          (p_begin "A" (GNEUndoList.new { viewNet := none, undoRedoEnabled := "" }))))) =
      some 2 :=
  ⟨(currentCommandGroupSize_counts
      (GNEUndoList.new { viewNet := none, undoRedoEnabled := "" })).1 rfl,
   (currentCommandGroupSize_counts
      (p_add ⟨1, true⟩
        (p_begin "A" (GNEUndoList.new { viewNet := none, undoRedoEnabled := "" })))).2.2.1
      "B" [⟨2, true⟩, ⟨3, false⟩, ⟨4, true⟩]⟩

/-! ### Claim C7: the update handlers -/

/-- After the first half of an update handler the sender's enabled flag equals
the flag `enable`, whatever kind of control the sender is. -/
theorem applyEnable_enabled (enable : Bool) (sender : Sender) :
    (applyEnable enable sender).enabled = enable := by
  unfold applyEnable
  cases hk : sender.kind <;> cases enable <;> cases he : sender.enabled <;>
    simp [Sender.handle, Sender.update, Sender.isEnabled, he]

/-- The second half of an update handler does not touch the enabled flag. -/
theorem applyCaption_enabled (caption : Option String) (sender r : Sender)
    (h : applyCaption caption sender = some r) : r.enabled = sender.enabled := by
  unfold applyCaption at h
  cases hk : sender.kind <;> rw [hk] at h
  · simp at h
    rw [← h]
  · cases caption with
    | none => simp at h
    | some c =>
      simp at h
      rw [← h]
      rfl
  · simp at h
    rw [← h]

/-- In a synced state the caption of a menu command can always be computed. -/
theorem menuCaption_isSome (name verb : String) (can : Bool) (s : GNEUndoList)
    (hs : Synced s) : (menuCaption name verb can s).isSome = true := by
  unfold menuCaption
  split
  · rfl
  · split
    · cases hstack : s.myCommandGroups with
      | nil =>
        rename_i hgrp
        simp [hasCommandGroup, hstack] at hgrp
      | cons top rest =>
        obtain ⟨g, tail, _, hd⟩ := Synced.deref_top s hs top rest hstack
        simp [hd]
    · split <;> rfl

/-- An update handler has a result as soon as the caption can be computed. -/
theorem applyCaption_isSome (caption : Option String) (sender : Sender)
    (h : caption.isSome = true) : (applyCaption caption sender).isSome = true := by
  unfold applyCaption
  cases hk : sender.kind
  · rfl
  · cases caption with
    | none => simp at h
    | some c => rfl
  · rfl

/-- With the flag `enable` false, the first half of an update handler sends the
sender no `ID_ENABLE`. -/
theorem applyEnable_false_handled (sender : Sender) :
    ∃ sent, (applyEnable false sender).handled = sender.handled ++ sent ∧
      Message.ID_ENABLE ∉ sent := by
  unfold applyEnable
  cases hk : sender.kind
  · cases he : sender.enabled
    · exact ⟨[], by simp [Sender.isEnabled, he], by simp⟩
    · exact ⟨[Message.ID_DISABLE, Message.update],
        by simp [Sender.isEnabled, he, Sender.handle, Sender.update], by simp⟩
  · exact ⟨[Message.ID_DISABLE], by simp [Sender.handle], by simp⟩
  · exact ⟨[Message.ID_DISABLE], by simp [Sender.handle], by simp⟩

/-- The second half of an update handler sends the sender no `ID_ENABLE`. -/
theorem applyCaption_handled (caption : Option String) (sender r : Sender)
    (h : applyCaption caption sender = some r) :
    ∃ sent, r.handled = sender.handled ++ sent ∧ Message.ID_ENABLE ∉ sent := by
  unfold applyCaption at h
  cases hk : sender.kind <;> rw [hk] at h
  · simp at h
    exact ⟨[], by simp [h], by simp⟩
  · cases caption with
    | none => simp at h
    | some c =>
      simp at h
      exact ⟨[Message.ID_SETSTRINGVALUE c, Message.update],
        by simp [← h, Sender.handle, Sender.update], by simp⟩
  · simp at h
    exact ⟨[], by simp [h], by simp⟩

/-- A handler run with the flag `enable` false sends the sender no `ID_ENABLE`. -/
theorem onUpd_false_handled (caption : Option String) (sender r : Sender)
    (h : applyCaption caption (applyEnable false sender) = some r) :
    ∃ sent, r.handled = sender.handled ++ sent ∧ Message.ID_ENABLE ∉ sent := by
  obtain ⟨sent1, h1, n1⟩ := applyEnable_false_handled sender
  obtain ⟨sent2, h2, n2⟩ := applyCaption_handled caption _ r h
  refine ⟨sent1 ++ sent2, ?_, ?_⟩
  · rw [h2, h1, List.append_assoc]
  · simp [n1, n2]

/-- A sender that is no menu command gets no caption, so the handler has a
result in every state. -/
theorem applyCaption_isSome_of_kind (caption : Option String) (sender : Sender)
    (h : sender.kind ≠ SenderKind.menuCommand) :
    (applyCaption caption sender).isSome = true := by
  unfold applyCaption
  cases hk : sender.kind
  · rfl
  · exact absurd hk h
  · rfl

/-- The first half of an update handler keeps the kind of the sender. -/
theorem applyEnable_kind (enable : Bool) (sender : Sender) :
    (applyEnable enable sender).kind = sender.kind := by
  unfold applyEnable
  cases hk : sender.kind <;> cases enable <;> cases he : sender.enabled <;>
    simp [Sender.handle, Sender.update, Sender.isEnabled, he, hk]

/-- Claim C7: in every state the flag `enable` of `p_onUpdUndo` equals
`canUndo()` and no open group and an empty `isUndoRedoEnabled()` string, the
flag of `p_onUpdRedo` equals the same with `canRedo()`, and the enabled state
of the sender after either handler equals that value, whatever kind of control
the sender is and whatever its state was. Hence in every state with an open
group (`hasCommandGroup()` true, the stack non-empty) both flags are false,
both controls end up disabled, and neither handler sends `ID_ENABLE`. Both
handlers have a result for every sender that is no menu command, and for every
sender in a synced state. -/
theorem onUpd_disabled_while_group_open (undoName redoName : String) (s : GNEUndoList)
    (sender : Sender) :
    (∀ r, p_onUpdUndo undoName s sender = some r →
      r.enabled = (s.canUndo && !s.hasCommandGroup &&
        s.myGNEApplicationWindowParent.undoRedoEnabled.isEmpty)) ∧
    (∀ r, p_onUpdRedo redoName s sender = some r →
      r.enabled = (s.canRedo && !s.hasCommandGroup &&
        s.myGNEApplicationWindowParent.undoRedoEnabled.isEmpty)) ∧
    s.undoEnable = (s.canUndo && !s.hasCommandGroup &&
      s.myGNEApplicationWindowParent.undoRedoEnabled.isEmpty) ∧
    s.redoEnable = (s.canRedo && !s.hasCommandGroup &&
      s.myGNEApplicationWindowParent.undoRedoEnabled.isEmpty) ∧
    (s.hasCommandGroup = true ↔ s.myCommandGroups ≠ []) ∧
    (s.hasCommandGroup = true →
      s.undoEnable = false ∧ s.redoEnable = false ∧
      (∀ r, p_onUpdUndo undoName s sender = some r →
        r.enabled = false ∧
        ∃ sent, r.handled = sender.handled ++ sent ∧ Message.ID_ENABLE ∉ sent) ∧
      (∀ r, p_onUpdRedo redoName s sender = some r →
        r.enabled = false ∧
        ∃ sent, r.handled = sender.handled ++ sent ∧ Message.ID_ENABLE ∉ sent)) ∧
    (sender.kind ≠ SenderKind.menuCommand →
      (p_onUpdUndo undoName s sender).isSome = true ∧
      (p_onUpdRedo redoName s sender).isSome = true) ∧
    (Synced s →
      (p_onUpdUndo undoName s sender).isSome = true ∧
      (p_onUpdRedo redoName s sender).isSome = true) := by
  have genU : ∀ r, p_onUpdUndo undoName s sender = some r → r.enabled = s.undoEnable := by
    intro r hres
    unfold p_onUpdUndo at hres
    rw [applyCaption_enabled _ _ _ hres, applyEnable_enabled]
  have genR : ∀ r, p_onUpdRedo redoName s sender = some r → r.enabled = s.redoEnable := by
    intro r hres
    unfold p_onUpdRedo at hres
    rw [applyCaption_enabled _ _ _ hres, applyEnable_enabled]
  refine ⟨?_, ?_, rfl, rfl, ?_, ?_, ?_, ?_⟩
  · intro r hres
    rw [genU r hres]
    rfl
  · intro r hres
    rw [genR r hres]
    rfl
  · unfold hasCommandGroup
    cases s.myCommandGroups <;> simp
  · intro h
    have hu : s.undoEnable = false := by simp [undoEnable, h]
    have hr : s.redoEnable = false := by simp [redoEnable, h]
    refine ⟨hu, hr, ?_, ?_⟩
    · intro r hres
      refine ⟨by rw [genU r hres, hu], ?_⟩
      unfold p_onUpdUndo at hres
      rw [hu] at hres
      exact onUpd_false_handled _ sender r hres
    · intro r hres
      refine ⟨by rw [genR r hres, hr], ?_⟩
      unfold p_onUpdRedo at hres
      rw [hr] at hres
      exact onUpd_false_handled _ sender r hres
  · intro hk
    have hk2 : ∀ enable, (applyEnable enable sender).kind ≠ SenderKind.menuCommand := by
      intro enable
      rw [applyEnable_kind]
      exact hk
    exact ⟨applyCaption_isSome_of_kind _ _ (hk2 _), applyCaption_isSome_of_kind _ _ (hk2 _)⟩
  · intro hs
    exact ⟨applyCaption_isSome _ _ (menuCaption_isSome undoName "Undo" s.canUndo s hs),
      applyCaption_isSome _ _ (menuCaption_isSome redoName "Redo" s.canRedo s hs)⟩

/-- Claim C7 at concrete states. With one undoable entry in the log and the
group `A` open, an enabled undo button and an enabled redo menu command both
end up disabled. With the same entry in the log and no group open, a disabled
undo button ends up enabled, while a redo button (there is nothing to redo)
ends up disabled. -/
theorem onUpd_disabled_while_group_open_witness :
    (p_onUpdUndo "Undo edit"
      (p_begin "A" (p_add ⟨1, true⟩ (GNEUndoList.new { viewNet := none, undoRedoEnabled := "" })))
      { kind := SenderKind.button, enabled := true, caption := "", handled := [] }).map
        Sender.enabled = some false ∧
    (p_onUpdRedo "Redo edit"
      (p_begin "A" (p_add ⟨1, true⟩ (GNEUndoList.new { viewNet := none, undoRedoEnabled := "" })))
      { kind := SenderKind.menuCommand, enabled := true, caption := "", handled := [] }).map
        Sender.enabled = some false ∧
    (p_onUpdUndo "Undo edit"
      (p_add ⟨1, true⟩ (GNEUndoList.new { viewNet := none, undoRedoEnabled := "" }))
      { kind := SenderKind.button, enabled := false, caption := "", handled := [] }).map
        Sender.enabled = some true ∧
    (p_onUpdRedo "Redo edit"
      (p_add ⟨1, true⟩ (GNEUndoList.new { viewNet := none, undoRedoEnabled := "" }))
      { kind := SenderKind.button, enabled := true, caption := "", handled := [] }).map
        Sender.enabled = some false := by
  have hb := onUpd_disabled_while_group_open "Undo edit" "Redo edit"
    (p_begin "A" (p_add ⟨1, true⟩ (GNEUndoList.new { viewNet := none, undoRedoEnabled := "" })))
    { kind := SenderKind.button, enabled := true, caption := "", handled := [] }
  have hm := onUpd_disabled_while_group_open "Undo edit" "Redo edit"
    (p_begin "A" (p_add ⟨1, true⟩ (GNEUndoList.new { viewNet := none, undoRedoEnabled := "" })))
    { kind := SenderKind.menuCommand, enabled := true, caption := "", handled := [] }
  have he := onUpd_disabled_while_group_open "Undo edit" "Redo edit"
    (p_add ⟨1, true⟩ (GNEUndoList.new { viewNet := none, undoRedoEnabled := "" }))
    { kind := SenderKind.button, enabled := false, caption := "", handled := [] }
  have hd := onUpd_disabled_while_group_open "Undo edit" "Redo edit"
    (p_add ⟨1, true⟩ (GNEUndoList.new { viewNet := none, undoRedoEnabled := "" }))
    { kind := SenderKind.button, enabled := true, caption := "", handled := [] }
  refine ⟨?_, ?_, ?_, ?_⟩
  · have hsome := (hb.2.2.2.2.2.2.2 (by decide)).1
    obtain ⟨r, hr⟩ := Option.isSome_iff_exists.mp hsome
    rw [hr]
    simp [((hb.2.2.2.2.2.1 rfl).2.2.1 r hr).1]
  · have hsome := (hm.2.2.2.2.2.2.2 (by decide)).2
    obtain ⟨r, hr⟩ := Option.isSome_iff_exists.mp hsome
    rw [hr]
    simp [((hm.2.2.2.2.2.1 rfl).2.2.2 r hr).1]
  · have hsome := (he.2.2.2.2.2.2.1 (by decide)).1
    obtain ⟨r, hr⟩ := Option.isSome_iff_exists.mp hsome
    rw [hr]
    have hen := he.1 r hr
    have hval : ((p_add ⟨1, true⟩
        (GNEUndoList.new { viewNet := none, undoRedoEnabled := "" })).canUndo &&
        !(p_add ⟨1, true⟩
          (GNEUndoList.new { viewNet := none, undoRedoEnabled := "" })).hasCommandGroup &&
        (p_add ⟨1, true⟩ (GNEUndoList.new
          { viewNet := none, undoRedoEnabled := "" })).myGNEApplicationWindowParent.undoRedoEnabled.isEmpty)
        = true := by decide
    rw [hval] at hen
    simp [hen]
  · have hsome := (hd.2.2.2.2.2.2.1 (by decide)).2
    obtain ⟨r, hr⟩ := Option.isSome_iff_exists.mp hsome
    rw [hr]
    have hen := hd.2.1 r hr
    have hval : ((p_add ⟨1, true⟩
        (GNEUndoList.new { viewNet := none, undoRedoEnabled := "" })).canRedo &&
        !(p_add ⟨1, true⟩
          (GNEUndoList.new { viewNet := none, undoRedoEnabled := "" })).hasCommandGroup &&
        (p_add ⟨1, true⟩ (GNEUndoList.new
          { viewNet := none, undoRedoEnabled := "" })).myGNEApplicationWindowParent.undoRedoEnabled.isEmpty)
        = false := by decide
    rw [hval] at hen
    simp [hen]

end GNEUndoList

namespace GNEUndoList

/-! ### Claim C10: the group stack and the nesting of the base class -/

/-- The calls made by `p_abort` contain no `begin` and no `end`, and one
`abort` per pointer. -/
theorem abortEvents_calls (l : List GroupPtr) :
    beginCalls (abortEvents l) = 0 ∧ endCalls (abortEvents l) = 0 ∧
    abortCalls (abortEvents l) = l.length := by
  induction l with
  | nil => simp [abortEvents, beginCalls, endCalls, abortCalls]
  | cons p rest ih =>
    obtain ⟨h1, h2, h3⟩ := ih
    simp only [beginCalls, endCalls, abortCalls] at h1 h2 h3 ⊢
    simp [abortEvents, List.countP_cons, h1, h2, h3]

/-- The calls made by `p_end` before `end()` contain no `begin`, `end` or
`abort`. -/
theorem endNotifications_calls (rest : List GroupPtr) (v : Option GNEViewNet) :
    beginCalls (endNotifications rest v) = 0 ∧ endCalls (endNotifications rest v) = 0 ∧
    abortCalls (endNotifications rest v) = 0 := by
  cases rest with
  | nil =>
    cases v with
    | none => simp [endNotifications, beginCalls, endCalls, abortCalls]
    | some viewNet =>
      by_cases hsel : selectModeActive viewNet.editModes = true <;>
        simp [endNotifications, beginCalls, endCalls, abortCalls, hsel]
  | cons p ps => cases v <;> simp [endNotifications, beginCalls, endCalls, abortCalls]

/-- The whole effect of `p_clear` on the stack, the chain of recording scopes
and the trace. -/
theorem p_clear_eq (s : GNEUndoList) :
    (p_clear s).myCommandGroups = [] ∧
    (p_clear s).group = s.group.drop s.myCommandGroups.length ∧
    (p_clear s).entries = [] ∧ (p_clear s).cursor = 0 ∧
    (p_clear s).trace = s.trace ++
      (if s.myGNEApplicationWindowParent.viewNet.isSome
        then [Event.disableIntervalBarUpdate] else []) ++
      abortEvents s.myCommandGroups ++ [Event.fx_clear] ++
      (if s.myGNEApplicationWindowParent.viewNet.isSome
        then [Event.enableIntervalBarUpdate] else []) := by
  unfold p_clear
  cases hv : s.myGNEApplicationWindowParent.viewNet with
  | none =>
    simp only [Option.isSome_none, Bool.false_eq_true, if_false]
    rw [p_abort_eq s.myCommandGroups s rfl]
    simp [fx_clear, emit, hv]
  | some viewNet =>
    simp only [Option.isSome_some, if_true]
    rw [p_abort_eq s.myCommandGroups (emit Event.disableIntervalBarUpdate s) rfl]
    simp [fx_clear, emit, hv]

/-- Every single call keeps the balance: the pushes it makes on the group stack
are as many as its calls of `begin`, the pops as many as its calls of `end` and
`abort`. -/
theorem step_balance (op : Op) (s t : GNEUndoList) (h : step op s = some t) :
    beginCalls t.trace + s.myCommandGroups.length + endCalls s.trace + abortCalls s.trace =
    beginCalls s.trace + t.myCommandGroups.length + endCalls t.trace + abortCalls t.trace := by
  cases op with
  | p_begin description =>
    simp [step] at h
    subst h
    simp [p_begin, fx_begin, beginCalls, endCalls, abortCalls, List.countP_append]
    omega
  | p_end =>
    simp only [step] at h
    cases hstack : s.myCommandGroups with
    | nil => simp [p_end, hstack] at h
    | cons top rest =>
      obtain ⟨u, hu, hst, _, _, htr⟩ := p_end_cons s top rest hstack
      rw [hu] at h
      cases h
      obtain ⟨n1, n2, n3⟩ := endNotifications_calls rest s.myGNEApplicationWindowParent.viewNet
      rw [htr, hst]
      simp only [beginCalls, endCalls, abortCalls] at n1 n2 n3 ⊢
      simp [List.countP_append, n1, n2, n3]
      omega
  | p_abortLastCommandGroup =>
    simp [step] at h
    subst h
    cases hstack : s.myCommandGroups with
    | nil => rw [p_abortLastCommandGroup_nil s hstack, hstack]
    | cons top rest =>
      rw [p_abortLastCommandGroup_cons s top rest hstack, abortTop_cons s top rest hstack]
      simp [beginCalls, endCalls, abortCalls, List.countP_append]
      omega
  | p_abort =>
    simp [step] at h
    subst h
    obtain ⟨n1, n2, n3⟩ := abortEvents_calls s.myCommandGroups
    rw [p_abort_eq s.myCommandGroups s rfl]
    simp only [beginCalls, endCalls, abortCalls] at n1 n2 n3 ⊢
    simp [List.countP_append, n1, n2, n3]
    omega
  | p_clear =>
    simp [step] at h
    subst h
    obtain ⟨c1, _, _, _, c5⟩ := p_clear_eq s
    obtain ⟨n1, n2, n3⟩ := abortEvents_calls s.myCommandGroups
    rw [c1, c5]
    simp only [beginCalls, endCalls, abortCalls] at n1 n2 n3 ⊢
    cases hv : s.myGNEApplicationWindowParent.viewNet <;>
      simp [List.countP_append, n1, n2, n3] <;> omega
  | p_add cmd =>
    simp [step] at h
    subst h
    by_cases ht : cmd.trueChange = true
    · simp [p_add_true cmd s ht, fx_add, beginCalls, endCalls, abortCalls, List.countP_append]
    · have hf : cmd.trueChange = false := by simpa using ht
      simp [p_add_false cmd s hf, beginCalls, endCalls, abortCalls, List.countP_append]

/-- Every single call keeps the stack of pointers and the chain of recording
scopes in step. -/
theorem step_synced (op : Op) (s t : GNEUndoList) (hs : Synced s) (h : step op s = some t) :
    Synced t := by
  unfold Synced at hs ⊢
  cases op with
  | p_begin description =>
    simp [step] at h
    subst h
    simp [p_begin, fx_begin, hs]
  | p_end =>
    simp only [step] at h
    cases hstack : s.myCommandGroups with
    | nil => simp [p_end, hstack] at h
    | cons top rest =>
      obtain ⟨u, hu, hst, hptr, _, _⟩ := p_end_cons s top rest hstack
      rw [hu] at h
      cases h
      rw [hst, hptr, ← hs, hstack]
      rfl
  | p_abortLastCommandGroup =>
    simp [step] at h
    subst h
    cases hstack : s.myCommandGroups with
    | nil =>
      rw [p_abortLastCommandGroup_nil s hstack]
      exact hs
    | cons top rest =>
      rw [p_abortLastCommandGroup_cons s top rest hstack, abortTop_cons s top rest hstack]
      simp only [List.map_tail, ← hs, hstack, List.tail_cons]
  | p_abort =>
    simp [step] at h
    subst h
    rw [p_abort_eq s.myCommandGroups s rfl]
    show [] = List.map Prod.fst (List.drop s.myCommandGroups.length s.group)
    rw [List.map_drop, ← hs, List.drop_length]
  | p_clear =>
    simp [step] at h
    subst h
    obtain ⟨c1, c2, _⟩ := p_clear_eq s
    rw [c1, c2, List.map_drop, ← hs, List.drop_length]
  | p_add cmd =>
    simp [step] at h
    subst h
    by_cases ht : cmd.trueChange = true
    · simp [p_add_true cmd s ht, fx_add, hs]
    · have hf : cmd.trueChange = false := by simpa using ht
      simp [p_add_false cmd s hf, hs]

/-- Sequences of calls keep what single calls keep. -/
theorem run_keeps (ops : List Op) :
    ∀ s t : GNEUndoList, run ops s = some t → Synced s →
      beginCalls s.trace = s.myCommandGroups.length + endCalls s.trace + abortCalls s.trace →
      Synced t ∧
      beginCalls t.trace = t.myCommandGroups.length + endCalls t.trace + abortCalls t.trace := by
  induction ops with
  | nil =>
    intro s t h hs hb
    simp [run] at h
    subst h
    exact ⟨hs, hb⟩
  | cons op ops ih =>
    intro s t h hs hb
    unfold run at h
    cases hstep : step op s with
    | none => simp [hstep] at h
    | some u =>
      simp only [hstep] at h
      have hbal := step_balance op s u hstep
      exact ih u t h (step_synced op s u hs hstep) (by omega)

end GNEUndoList

namespace GNEUndoList

/-- Claim C10: take any sequence of `p_begin`, `p_end`, `p_abortLastCommandGroup`,
`p_abort`, `p_clear` (and `p_add`) calls from a freshly constructed undo list in
which every call has a defined result, i.e. `p_end` is only called with a
non-empty stack. In the state reached the depth of the group stack equals the
nesting depth of the base class, and the two even hold the same group pointers
in the same order; the number of `begin` calls made so far equals the stack
depth plus the number of `end` and `abort` calls; every further call pushes as
often as it calls `begin` and pops as often as it calls `end` or `abort`; and
after `p_clear` the stack depth and the nesting depth are both zero. -/
theorem stack_depth_eq_nesting (parent : GNEApplicationWindow) (ops : List Op)
    (s : GNEUndoList) (h : run ops (GNEUndoList.new parent) = some s) :
    s.myCommandGroups.length = s.nesting ∧
    Synced s ∧
    beginCalls s.trace = s.myCommandGroups.length + endCalls s.trace + abortCalls s.trace ∧
    (∀ op t, step op s = some t →
      t.myCommandGroups.length = t.nesting ∧
      beginCalls t.trace + s.myCommandGroups.length + endCalls s.trace + abortCalls s.trace =
        beginCalls s.trace + t.myCommandGroups.length + endCalls t.trace + abortCalls t.trace) ∧
    (p_clear s).myCommandGroups.length = 0 ∧
    (p_clear s).nesting = 0 := by
  have hinit : Synced (GNEUndoList.new parent) := rfl
  have hbal : beginCalls (GNEUndoList.new parent).trace =
      (GNEUndoList.new parent).myCommandGroups.length +
        endCalls (GNEUndoList.new parent).trace + abortCalls (GNEUndoList.new parent).trace := rfl
  obtain ⟨hs, hb⟩ := run_keeps ops (GNEUndoList.new parent) s h hinit hbal
  have hdepth : ∀ u : GNEUndoList, Synced u → u.myCommandGroups.length = u.nesting := by
    intro u hu
    unfold Synced at hu
    rw [hu, List.length_map]
    rfl
  refine ⟨hdepth s hs, hs, hb, ?_, ?_, ?_⟩
  · intro op t ht
    exact ⟨hdepth t (step_synced op s t hs ht), step_balance op s t ht⟩
  · rw [(p_clear_eq s).1]
    rfl
  · have hc : Synced (p_clear s) := step_synced Op.p_clear s (p_clear s) hs rfl
    rw [← hdepth (p_clear s) hc, (p_clear_eq s).1]
    rfl

/-- Claim C10 at a concrete sequence of calls: open `A`, add a change, open `B`,
end `B`, abort `A`, open `C`, abort everything, clear. -/
theorem stack_depth_eq_nesting_witness :
    ∃ s, run [Op.p_begin "A", Op.p_add ⟨1, true⟩, Op.p_begin "B", Op.p_end,
              Op.p_abortLastCommandGroup, Op.p_begin "C", Op.p_abort, Op.p_clear]
            (GNEUndoList.new { viewNet := none, undoRedoEnabled := "" }) = some s ∧
      s.myCommandGroups.length = s.nesting ∧
      beginCalls s.trace = s.myCommandGroups.length + endCalls s.trace + abortCalls s.trace :=
  have h0 : (run [Op.p_begin "A", Op.p_add ⟨1, true⟩, Op.p_begin "B", Op.p_end,
              Op.p_abortLastCommandGroup, Op.p_begin "C", Op.p_abort, Op.p_clear]
            (GNEUndoList.new { viewNet := none, undoRedoEnabled := "" })).isSome = true := rfl
  have h1 := (Option.some_get h0).symm
  have hthm := stack_depth_eq_nesting { viewNet := none, undoRedoEnabled := "" } _ _ h1
  ⟨_, h1, hthm.1, hthm.2.2.1⟩

end GNEUndoList
